import Mathlib

/-!
Shallow embedding of the multimodal routing backend:
`backend_multimodal_graph.py` (mode layers, interlayer transfer edges),
`backend_router.py` (route computation, segment assembly, edge-data resolution)
and `utils_py.py` (nearest node, cost model).

Node identifiers are strings (e.g. "12345_walk"); numeric quantities (lengths in
meters, times in minutes, weights, coordinates) are rationals.  Attribute
dictionaries of networkx nodes/edges become records of `Option` fields; a missing
key is `none`.  The graph is a directed multigraph: an explicit list of
(source, target, key, data) entries, list order modelling insertion order
(which is also Python dict iteration order).
-/

namespace MultiRoute

abbrev Node := String

/-- A (lat, lon) coordinate pair, i.e. the (y, x) node attributes. -/
abbrev Coord := ℚ × ℚ

/-- Edge attribute dictionary: `mode`, `time`, `weight`, `length` keys, each possibly absent. -/
structure EdgeData where
  mode : Option String := none
  time : Option ℚ := none
  weight : Option ℚ := none
  length : Option ℚ := none
deriving DecidableEq, Repr

/-- Node attribute dictionary: the `y` (latitude) and `x` (longitude) keys, each possibly absent. -/
structure NodeData where
  y : Option ℚ := none
  x : Option ℚ := none
deriving DecidableEq, Repr

/-- A networkx `MultiDiGraph`: node list with attributes, and a list of
(source, target, key, data) edges in insertion order. -/
structure MultiDiGraph where
  nodes : List (Node × NodeData) := []
  edges : List (Node × Node × Nat × EdgeData) := []
deriving DecidableEq, Repr

/-- The empty graph. -/
def emptyGraph : MultiDiGraph := {}

/-- An attribute dictionary with no keys, the `{}` the router substitutes for a missing edge. -/
def emptyEdgeData : EdgeData := {}

/-- All parallel edges from `u` to `v` with their keys, in insertion order: the
dictionary `graph.get_edge_data(u, v)` returns for a `MultiDiGraph` (empty list when
networkx would return `None`). -/
def getEdgeDataDict (g : MultiDiGraph) (u v : Node) : List (Nat × EdgeData) :=
  g.edges.filterMap (fun e => if e.1 = u ∧ e.2.1 = v then some (e.2.2.1, e.2.2.2) else none)

/-- Embedding of `_get_edge_data` from `backend_router.py`: the entry keyed `0` when present, else the
first entry of the dictionary, else the empty dictionary when no edge exists. -/
def getEdgeData (g : MultiDiGraph) (u v : Node) : EdgeData :=
  match (getEdgeDataDict g u v).find? (fun kd => kd.1 == 0) with
  | some kd => kd.2
  | none =>
    match getEdgeDataDict g u v with
    | [] => emptyEdgeData
    | kd :: _ => kd.2

/-- Resolution of `edge_data.get('mode', 'walk')` on the resolved edge data. -/
def resolvedMode (g : MultiDiGraph) (u v : Node) : String :=
  (getEdgeData g u v).mode.getD "walk"

/-- Resolution of `edge_data.get('time', 1.0)` on the resolved edge data. -/
def resolvedTime (g : MultiDiGraph) (u v : Node) : ℚ :=
  (getEdgeData g u v).time.getD 1

/-- Embedding of `calc_cost` from `utils_py.py`: flat 20 currency units for car, 0 for every other mode. -/
def calc_cost (mode : String) (time_minutes : ℚ) : ℚ :=
  if mode = "car" then 20
  else if mode = "bike" then 0
  else if mode = "walk" then 0
  else if mode = "transfer" then 0
  else 0

/-- Python's `round` to an integer: round half to even. -/
def pyRound (q : ℚ) : ℤ :=
  let f := ⌊q⌋
  let r := q - f
  if r < 1/2 then f
  else if 1/2 < r then f + 1
  else if Even f then f else f + 1

/-- Python's `round(x, 0)` as a rational value. -/
def round0 (q : ℚ) : ℚ := (pyRound q : ℚ)

/-- Python's `round(x, 1)` as a rational value. -/
def round1 (q : ℚ) : ℚ := (pyRound (q * 10) : ℚ) / 10

/-- Attribute dictionary of a node (`graph.nodes[n]`), empty when the node is absent. -/
def nodeYX (g : MultiDiGraph) (n : Node) : NodeData :=
  ((g.nodes.find? (fun p => p.1 = n)).map Prod.snd).getD {}

/-- The `[lat, lon]` pair `_path_to_segments` reads off a node
(`[node_data['y'], node_data['x']]`); a missing attribute is defaulted to 0 here, where
the source would raise — theorems about coordinates assume the attributes are present. -/
def nodeCoord (g : MultiDiGraph) (n : Node) : Coord :=
  ((nodeYX g n).y.getD 0, (nodeYX g n).x.getD 0)

/-- One itinerary segment: a maximal same-mode run of path edges. -/
structure Segment where
  mode : String
  coords : List Coord
  time : ℚ
  cost : ℚ
deriving DecidableEq, Repr

/-- The loop state of `_path_to_segments`: current mode (None initially), the open
segment's coordinates, accumulated time and cost, and the emitted segments. -/
structure SegState where
  currentMode : Option String
  currentCoords : List Coord
  currentTime : ℚ
  currentCost : ℚ
  segments : List Segment
deriving DecidableEq, Repr

/-- Source line `if current_mode is None: current_mode = mode; current_coords = [coord]`. -/
def segInit (mode : String) (coord : Coord) (st : SegState) : SegState :=
  match st.currentMode with
  | none => { st with currentMode := some mode, currentCoords := [coord] }
  | some _ => st

/-- Source branch `if mode != current_mode:` — emit the running segment (when its coordinate list is
non-empty) and open a fresh one. -/
def segSwitch (mode : String) (coord : Coord) (st : SegState) : SegState :=
  if st.currentMode = some mode then st
  else
    { currentMode := some mode
      currentCoords := [coord]
      currentTime := 0
      currentCost := 0
      segments := st.segments ++
        (if st.currentCoords = [] then []
         else [{ mode := st.currentMode.getD "", coords := st.currentCoords,
                 time := round1 st.currentTime, cost := round0 st.currentCost }]) }

/-- Source line `if coord not in current_coords: current_coords.append(coord)` — the membership test
runs over the WHOLE open list, not just its last element. -/
def segCoord (coord : Coord) (st : SegState) : SegState :=
  if coord ∈ st.currentCoords then st
  else { st with currentCoords := st.currentCoords ++ [coord] }

/-- Source lines `current_time += time; current_cost += calc_cost(mode, time)`. -/
def segAccum (mode : String) (time : ℚ) (st : SegState) : SegState :=
  { st with currentTime := st.currentTime + time,
            currentCost := st.currentCost + calc_cost mode time }

/-- The loop body of `_path_to_segments` on already-resolved mode/time/coordinate. -/
def segStepCore (mode : String) (time : ℚ) (coord : Coord) (st : SegState) : SegState :=
  segAccum mode time (segCoord coord (segSwitch mode coord (segInit mode coord st)))

/-- One iteration of the edge loop of `_path_to_segments` for the path edge `uv`. -/
def segStep (g : MultiDiGraph) (st : SegState) (uv : Node × Node) : SegState :=
  segStepCore (resolvedMode g uv.1 uv.2) (resolvedTime g uv.1 uv.2) (nodeCoord g uv.1) st

/-- The consecutive node pairs of a path, i.e. its edges in order. -/
def pathPairs (path : List Node) : List (Node × Node) :=
  path.zip path.tail

/-- The loop state before the first edge. -/
def initSegState : SegState := ⟨none, [], 0, 0, []⟩

/-- The closing step of `_path_to_segments`: `if current_mode is not None and
current_coords:` append the final segment. -/
def segClose (st : SegState) : List Segment :=
  match st.currentMode with
  | none => st.segments
  | some m =>
    if st.currentCoords = [] then st.segments
    else st.segments ++
      [{ mode := m, coords := st.currentCoords,
         time := round1 st.currentTime, cost := round0 st.currentCost }]

/-- Embedding of `_path_to_segments` from `backend_router.py`: guard short paths, fold the edge loop,
append the destination coordinate (same membership-guarded append as in the loop), then
close the last segment. -/
def pathToSegments (g : MultiDiGraph) (path : List Node) : List Segment :=
  if path.length < 2 then []
  else
    segClose (segCoord (nodeCoord g (path.getLast?.getD ""))
      ((pathPairs path).foldl (segStep g) initSegState))

/-- Embedding of `nearest_node` from `utils_py.py`: linear scan over coordinate-bearing nodes tracking
the minimum distance (strict `<` keeps the first-encountered node on ties); the geodesic
distance computation is the external `geopy` collaborator, passed in as `dist`. -/
def nearestNode (dist : Coord → Coord → ℚ) (g : MultiDiGraph) (lat lon : ℚ) : Option Node :=
  (g.nodes.foldl
    (fun acc np =>
      match np.2.y, np.2.x with
      | some ny, some nxv =>
        let d := dist (lat, lon) (ny, nxv)
        match acc with
        | none => some (d, np.1)
        | some best => if d < best.1 then some (d, np.1) else acc
      | _, _ => acc)
    none).map Prod.snd

/-- Out-neighbours of a node. -/
def successors (g : MultiDiGraph) (u : Node) : List Node :=
  (g.edges.filterMap (fun e => if e.1 = u then some e.2.1 else none)).dedup

/-- First `some` value produced by `f` along a list. -/
def firstSome (f : α → Option β) : List α → Option β
  | [] => none
  | a :: as =>
    match f a with
    | some b => some b
    | none => firstSome f as

/-- Fuel-bounded depth-first search for a path ending at `t`. -/
def dfs (g : MultiDiGraph) (t : Node) : Nat → List Node → Node → Option (List Node)
  | 0, _, _ => none
  | fuel+1, visited, u =>
    if u = t then some [u]
    else
      firstSome
        (fun v => if v ∈ visited then none
                  else (dfs g t fuel (u :: visited) v).map (u :: ·))
        (successors g u)

/-- Modelled from the spec: the external `networkx.shortest_path` collaborator
(`nx.shortest_path(graph, start, end, weight='time')`, §4.5 RoutePlanner).  The source
delegates to the library; the development relies only on two contractual facts any
shortest-path search has: a returned list is a genuine directed path from `s` to `t`,
and `s = t` yields the one-node path `[s]`. -/
def shortest_path (g : MultiDiGraph) (s t : Node) : Option (List Node) :=
  dfs g t (g.nodes.length + 1) [] s

/-- Existence of an edge from `u` to `v`. -/
def hasEdge (g : MultiDiGraph) (u v : Node) : Prop :=
  ∃ k d, (u, v, k, d) ∈ g.edges

/-- Statement that `p` is a directed walk in `g` from `s` to `t`. -/
def IsWalkFrom (g : MultiDiGraph) (s t : Node) (p : List Node) : Prop :=
  p.head? = some s ∧ p.getLast? = some t ∧ List.Chain' (hasEdge g) p

/-- The two failure modes of `get_multimodal_route` (both surfaced as `ValueError`s in
the source, with distinct messages). -/
inductive RouteError
  | nodeNotFound
  | noPathFound
deriving DecidableEq, Repr

/-- The route dictionary `get_multimodal_route` returns. -/
structure RouteData where
  total_time : ℚ
  total_cost : ℚ
  segments : List Segment
deriving DecidableEq, Repr

/-- Embedding of `get_multimodal_route` from `backend_router.py`. -/
def get_multimodal_route (dist : Coord → Coord → ℚ) (g : MultiDiGraph)
    (slat slon elat elon : ℚ) : Except RouteError RouteData :=
  match nearestNode dist g slat slon, nearestNode dist g elat elon with
  | some s, some t =>
    match shortest_path g s t with
    | none => .error .noPathFound
    | some path =>
      let segs := pathToSegments g path
      .ok { total_time := round1 ((segs.map Segment.time).sum),
            total_cost := round0 ((segs.map Segment.cost).sum),
            segments := segs }
  | _, _ => .error .nodeNotFound

/-- Travel time `_add_mode_attributes` computes for an edge:
`(length / 1000 / speed_kmh) * 60` minutes when `length` is present, else the fallback 1.0. -/
def modeTime (len : Option ℚ) (speed_kmh : ℚ) : ℚ :=
  match len with
  | some L => L / 1000 / speed_kmh * 60
  | none => 1

/-- Embedding of `_add_mode_attributes` from `backend_multimodal_graph.py`: tags every edge of a layer
with its mode, computes `time` from `length` and the layer speed, and sets `weight = time`. -/
def addModeAttributes (g : MultiDiGraph) (mode : String) (speed_kmh : ℚ) : MultiDiGraph :=
  { g with
    edges := g.edges.map (fun e =>
      let t := modeTime e.2.2.2.length speed_kmh
      (e.1, e.2.1, e.2.2.1, { e.2.2.2 with mode := some mode, time := some t, weight := some t })) }

/-- Source expression `node1.split('_')[0]`: the original (un-namespaced) location id of a namespaced node —
the characters before the first underscore (the whole string when none occurs, matching
Python's `split`). -/
def origId (n : Node) : String :=
  ⟨n.data.takeWhile (fun c => c ≠ '_')⟩

/-- The co-located transfer edge data: `weight=0.5, time=0.5, mode='transfer', length=0`. -/
def transferEdge05 : EdgeData :=
  { mode := some "transfer", time := some (1/2), weight := some (1/2), length := some 0 }

/-- The proximity transfer edge data: `weight=2.0, time=2.0, mode='transfer', length=d`. -/
def transferEdge2 (d : ℚ) : EdgeData :=
  { mode := some "transfer", time := some 2, weight := some 2, length := some d }

/-- networkx `add_edge` inserts missing endpoints with an empty attribute dictionary. -/
def ensureNode (g : MultiDiGraph) (n : Node) : MultiDiGraph :=
  if (g.nodes.find? (fun p => p.1 = n)).isSome then g
  else { g with nodes := g.nodes ++ [(n, {})] }

/-- networkx `MultiDiGraph.add_edge` without an explicit key: appends the edge with the
next automatic key (the current count of parallel edges from `u` to `v`). -/
def addEdgeAuto (g : MultiDiGraph) (u v : Node) (d : EdgeData) : MultiDiGraph :=
  { nodes := (ensureNode (ensureNode g u) v).nodes,
    edges := (ensureNode (ensureNode g u) v).edges ++
      [(u, v, (getEdgeDataDict (ensureNode (ensureNode g u) v) u v).length, d)] }

/-- The body of the inner loop of `_add_interlayer_edges` for the ordered visit
`(n1, n2)`: skip identical nodes; a shared original id gets one 0.5 transfer edge
`n1 → n2`; otherwise a geodesic distance ≤ 10 meters gets 2.0 transfer edges in both
directions.  `dist` stands for the external `geopy.distance.geodesic(..).meters`. -/
def interStep (dist : Coord → Coord → ℚ) (n1 : Node) (p1 : Coord)
    (g : MultiDiGraph) (np2 : Node × Coord) : MultiDiGraph :=
  if n1 = np2.1 then g
  else if origId n1 = origId np2.1 then
    addEdgeAuto g n1 np2.1 transferEdge05
  else if dist p1 np2.2 ≤ 10 then
    addEdgeAuto (addEdgeAuto g n1 np2.1 (transferEdge2 (dist p1 np2.2)))
      np2.1 n1 (transferEdge2 (dist p1 np2.2))
  else g

/-- Embedding of `_add_interlayer_edges` from `backend_multimodal_graph.py`: the pairwise scan over the
combined position table `ps` (an ordered association list standing for the
`node_positions` dict), adding transfer edges to the merged graph `g`. -/
def addInterlayerEdges (dist : Coord → Coord → ℚ) (g : MultiDiGraph)
    (ps : List (Node × Coord)) : MultiDiGraph :=
  ps.foldl (fun g1 np1 => ps.foldl (interStep dist np1.1 np1.2) g1) g

/-- The attribute data of every edge from `a` to `b`, in insertion order. -/
def edgesBetween (g : MultiDiGraph) (a b : Node) : List EdgeData :=
  g.edges.filterMap (fun e => if e.1 = a ∧ e.2.1 = b then some e.2.2.2 else none)

/-- The edges from `a` to `b` contributed by the single ordered visit `(n1, n2)` of the
pairwise scan. -/
def visitContrib (dist : Coord → Coord → ℚ) (n1 : Node) (p1 : Coord)
    (np2 : Node × Coord) (a b : Node) : List EdgeData :=
  if n1 = np2.1 then []
  else if origId n1 = origId np2.1 then
    (if n1 = a ∧ np2.1 = b then [transferEdge05] else [])
  else if dist p1 np2.2 ≤ 10 then
    (if n1 = a ∧ np2.1 = b then [transferEdge2 (dist p1 np2.2)] else []) ++
    (if np2.1 = a ∧ n1 = b then [transferEdge2 (dist p1 np2.2)] else [])
  else []

/-- One-edge graph whose single edge carries no attributes (length unknown). -/
def gC4 : MultiDiGraph :=
  { nodes := [], edges := [("a", "b", 0, {})] }

/-- The edge data the attribute pass produces from an attribute-free edge at speed 5. -/
def dC4 : EdgeData :=
  { mode := some "walk", time := some (modeTime none 5),
    weight := some (modeTime none 5), length := none }

/-- Number of path edges whose resolved mode is `car`. -/
def carEdgeCount (g : MultiDiGraph) (path : List Node) : Nat :=
  (pathPairs path).countP (fun uv => resolvedMode g uv.1 uv.2 = "car")

/-- Modelled from the spec: the coordinate sequence §4.6 prescribes for a single-mode
path — each traversed node's coordinate is appended unless it equals the last recorded
coordinate (only consecutive duplicates removed), destination included. -/
def specPolicyCoords (g : MultiDiGraph) (path : List Node) : List Coord :=
  (path.map (nodeCoord g)).foldl
    (fun acc c => if acc.getLast? = some c then acc else acc ++ [c]) []

/-- The parallel-edge policy the claim states for `_get_edge_data`: the resolved edge
data has the lowest weight among all parallel edges between the pair. -/
def picksLowestWeight (g : MultiDiGraph) (u v : Node) : Prop :=
  ∀ kd ∈ getEdgeDataDict g u v, ∀ w w' : ℚ,
    (getEdgeData g u v).weight = some w → kd.2.weight = some w' → w ≤ w'

/-- A node's mode suffix (`walk`/`bike`/`car`): the characters after the last underscore
(the whole string when none occurs). -/
def modeSuffix (n : Node) : String :=
  ⟨(n.data.reverse.takeWhile (fun c => c ≠ '_')).reverse⟩

/-- A symmetric stand-in distance used to instantiate counterexamples and witnesses:
0 between equal coordinates, 100 otherwise (chosen free of rational arithmetic). -/
def tableDist (p q : Coord) : ℚ :=
  if p = q then 0 else 100

/-- Position table of one walk node and one bike node with distinct original ids at the
same physical location (distance 0). -/
def psCross : List (Node × Coord) := [("1_walk", (0, 0)), ("2_bike", (0, 0))]

/-- Position table of a walk node and a bike node sharing the original id 7. -/
def psShared : List (Node × Coord) := [("7_walk", (0, 0)), ("7_bike", (0, 0))]

/-- Position table of two walk-layer nodes with distinct original ids at the same
physical location. -/
def psSameLayer : List (Node × Coord) := [("1_walk", (0, 0)), ("2_walk", (0, 0))]

/-- Four-node single-mode graph in which the third node `A2` shares `A`'s coordinate:
walking A → B → A2 → C revisits the coordinate (0,0) non-consecutively. -/
def gC7 : MultiDiGraph :=
  { nodes := [("A", ⟨some 0, some 0⟩), ("B", ⟨some 1, some 1⟩),
              ("A2", ⟨some 0, some 0⟩), ("C", ⟨some 2, some 2⟩)],
    edges := [("A", "B", 0, { mode := some "walk", time := some 1 }),
              ("B", "A2", 0, { mode := some "walk", time := some 1 }),
              ("A2", "C", 0, { mode := some "walk", time := some 1 })] }

/-- The walk A → B → A2 → C through `gC7`. -/
def pathC7 : List Node := ["A", "B", "A2", "C"]

/-- Two parallel edges `u → v`: key 0 carries weight 5, key 1 carries weight 1. -/
def gC6 : MultiDiGraph :=
  { nodes := [],
    edges := [("u", "v", 0, { weight := some 5 }), ("u", "v", 1, { weight := some 1 })] }

/-- Two coordinate-bearing nodes with no edges at all: disconnected. -/
def gC8 : MultiDiGraph :=
  { nodes := [("a", ⟨some 0, some 0⟩), ("b", ⟨some 5, some 5⟩)], edges := [] }

/-- A single coordinate-bearing node. -/
def gC9 : MultiDiGraph :=
  { nodes := [("a", ⟨some 0, some 0⟩)], edges := [] }

/-- Concatenation of the lists `f x` over a list, in order. -/
def concatMap (f : α → List β) : List α → List β
  | [] => []
  | a :: as => f a ++ concatMap f as

lemma concatMap_eq_nil {f : α → List β} :
    ∀ {l : List α}, (∀ x ∈ l, f x = []) → concatMap f l = []
  | [], _ => rfl
  | a :: as, h => by
    rw [concatMap, h a (List.mem_cons_self a as), List.nil_append]
    exact concatMap_eq_nil (fun x hx => h x (List.mem_cons_of_mem a hx))

lemma concatMap_single {β : Type} {f : Node × Coord → List β} {b : Node} {pb : Coord} :
    ∀ {l : List (Node × Coord)}, (b, pb) ∈ l → (l.map Prod.fst).Nodup →
      (∀ x ∈ l, x.1 ≠ b → f x = []) → concatMap f l = f (b, pb) := by
  intro l
  induction l with
  | nil => intro h; cases h
  | cons np rest ih =>
    intro hmem hnodup hsupp
    rw [List.map_cons, List.nodup_cons] at hnodup
    rcases List.mem_cons.mp hmem with hh | hh
    · have hrest : ∀ x ∈ rest, f x = [] := by
        intro x hx
        by_cases hxb : x.1 = b
        · exfalso
          apply hnodup.1
          rw [← hh]
          have hm : x.1 ∈ rest.map Prod.fst := List.mem_map_of_mem Prod.fst hx
          rw [hxb] at hm
          exact hm
        · exact hsupp x (List.mem_cons_of_mem np hx) hxb
      rw [concatMap, concatMap_eq_nil hrest, List.append_nil, hh]
    · have hnpb : np.1 ≠ b := by
        intro he
        apply hnodup.1
        have hm : b ∈ rest.map Prod.fst := List.mem_map_of_mem Prod.fst hh
        rw [he]
        exact hm
      rw [concatMap, hsupp np (List.mem_cons_self np rest) hnpb, List.nil_append]
      exact ih hh hnodup.2 (fun x hx hxb => hsupp x (List.mem_cons_of_mem np hx) hxb)

lemma concatMap_pair {β : Type} {f : Node × Coord → List β}
    {a b : Node} {pa pb : Coord} (hab : a ≠ b) :
    ∀ {l : List (Node × Coord)}, (a, pa) ∈ l → (b, pb) ∈ l → (l.map Prod.fst).Nodup →
      (∀ x ∈ l, x.1 ≠ a → x.1 ≠ b → f x = []) →
      concatMap f l = f (a, pa) ++ f (b, pb) ∨ concatMap f l = f (b, pb) ++ f (a, pa) := by
  intro l
  induction l with
  | nil => intro h; cases h
  | cons np rest ih =>
    intro hma hmb hnodup hsupp
    rw [List.map_cons, List.nodup_cons] at hnodup
    rcases List.mem_cons.mp hma with ha | ha
    · have hmb' : (b, pb) ∈ rest := by
        rcases List.mem_cons.mp hmb with hb | hb
        · exact absurd (congrArg Prod.fst (ha.trans hb.symm)) hab
        · exact hb
      left
      rw [concatMap, ← ha]
      congr 1
      refine concatMap_single hmb' hnodup.2 ?_
      intro x hx hxb
      by_cases hxa : x.1 = a
      · exfalso
        apply hnodup.1
        rw [← ha]
        have hm : x.1 ∈ rest.map Prod.fst := List.mem_map_of_mem Prod.fst hx
        rw [hxa] at hm
        exact hm
      · exact hsupp x (List.mem_cons_of_mem np hx) hxa hxb
    · rcases List.mem_cons.mp hmb with hb | hb
      · right
        rw [concatMap, ← hb]
        congr 1
        refine concatMap_single ha hnodup.2 ?_
        intro x hx hxa
        by_cases hxb : x.1 = b
        · exfalso
          apply hnodup.1
          rw [← hb]
          have hm : x.1 ∈ rest.map Prod.fst := List.mem_map_of_mem Prod.fst hx
          rw [hxb] at hm
          exact hm
        · exact hsupp x (List.mem_cons_of_mem np hx) hxa hxb
      · have hnpa : np.1 ≠ a := by
          intro he
          apply hnodup.1
          have hm : a ∈ rest.map Prod.fst := List.mem_map_of_mem Prod.fst ha
          rw [he]
          exact hm
        have hnpb : np.1 ≠ b := by
          intro he
          apply hnodup.1
          have hm : b ∈ rest.map Prod.fst := List.mem_map_of_mem Prod.fst hb
          rw [he]
          exact hm
        rw [concatMap, hsupp np (List.mem_cons_self np rest) hnpa hnpb, List.nil_append]
        exact ih ha hb hnodup.2 (fun x hx => hsupp x (List.mem_cons_of_mem np hx))

lemma ensureNode_edges (g : MultiDiGraph) (n : Node) : (ensureNode g n).edges = g.edges := by
  unfold ensureNode
  split <;> rfl

lemma addEdgeAuto_edges (g : MultiDiGraph) (u v : Node) (d : EdgeData) :
    (addEdgeAuto g u v d).edges
      = g.edges ++ [(u, v, (getEdgeDataDict (ensureNode (ensureNode g u) v) u v).length, d)] := by
  show (ensureNode (ensureNode g u) v).edges ++ _ = _
  rw [ensureNode_edges, ensureNode_edges]

lemma edgesBetween_addEdgeAuto (g : MultiDiGraph) (u v : Node) (d : EdgeData) (a b : Node) :
    edgesBetween (addEdgeAuto g u v d) a b
      = edgesBetween g a b ++ (if u = a ∧ v = b then [d] else []) := by
  unfold edgesBetween
  rw [addEdgeAuto_edges, List.filterMap_append]
  congr 1
  by_cases h : u = a ∧ v = b
  · simp [h]
  · simp [h]

lemma edgesBetween_interStep (dist : Coord → Coord → ℚ) (n1 : Node) (p1 : Coord)
    (g : MultiDiGraph) (np2 : Node × Coord) (a b : Node) :
    edgesBetween (interStep dist n1 p1 g np2) a b
      = edgesBetween g a b ++ visitContrib dist n1 p1 np2 a b := by
  unfold interStep visitContrib
  split
  · simp
  · split
    · rw [edgesBetween_addEdgeAuto]
    · split
      · rw [edgesBetween_addEdgeAuto, edgesBetween_addEdgeAuto, List.append_assoc]
      · simp

lemma edgesBetween_innerFold (dist : Coord → Coord → ℚ) (n1 : Node) (p1 : Coord) (a b : Node) :
    ∀ (qs : List (Node × Coord)) (g : MultiDiGraph),
      edgesBetween (qs.foldl (interStep dist n1 p1) g) a b
        = edgesBetween g a b ++ concatMap (fun np2 => visitContrib dist n1 p1 np2 a b) qs := by
  intro qs
  induction qs with
  | nil => intro g; simp [concatMap]
  | cons np2 rest ih =>
    intro g
    rw [List.foldl_cons, ih, edgesBetween_interStep, concatMap, List.append_assoc]

lemma edgesBetween_linker (dist : Coord → Coord → ℚ) (ps : List (Node × Coord)) (a b : Node) :
    ∀ (qs : List (Node × Coord)) (g : MultiDiGraph),
      edgesBetween (qs.foldl (fun g1 np1 => ps.foldl (interStep dist np1.1 np1.2) g1) g) a b
        = edgesBetween g a b ++
            concatMap (fun np1 => concatMap (fun np2 => visitContrib dist np1.1 np1.2 np2 a b) ps) qs := by
  intro qs
  induction qs with
  | nil => intro g; simp [concatMap]
  | cons np1 rest ih =>
    intro g
    rw [List.foldl_cons, ih, edgesBetween_innerFold, concatMap, List.append_assoc]

lemma visitContrib_nil_left (dist : Coord → Coord → ℚ) (n1 : Node) (p1 : Coord)
    (np2 : Node × Coord) (a b : Node) (h1 : n1 ≠ a) (h2 : n1 ≠ b) :
    visitContrib dist n1 p1 np2 a b = [] := by
  unfold visitContrib
  split_ifs <;> simp_all

lemma visitContrib_nil_right (dist : Coord → Coord → ℚ) (n1 : Node) (p1 : Coord)
    (np2 : Node × Coord) (a b : Node) (h1 : np2.1 ≠ a) (h2 : np2.1 ≠ b) :
    visitContrib dist n1 p1 np2 a b = [] := by
  unfold visitContrib
  split_ifs <;> simp_all

lemma visitContrib_self (dist : Coord → Coord → ℚ) (n : Node) (p1 p2 : Coord) (a b : Node) :
    visitContrib dist n p1 (n, p2) a b = [] := by
  unfold visitContrib
  simp

/-- The complete effect of `_add_interlayer_edges` on the edges from `a` to `b` for two
listed nodes `a`, `b`: only the two ordered visits of the pair contribute, in one of the
two scan orders. -/
lemma linker_pair_edges (dist : Coord → Coord → ℚ) (g : MultiDiGraph)
    (ps : List (Node × Coord)) (a b : Node) (pa pb : Coord)
    (hnodup : (ps.map Prod.fst).Nodup) (hma : (a, pa) ∈ ps) (hmb : (b, pb) ∈ ps)
    (hab : a ≠ b) :
    edgesBetween (addInterlayerEdges dist g ps) a b
      = edgesBetween g a b ++
          (visitContrib dist a pa (b, pb) a b ++ visitContrib dist b pb (a, pa) a b) ∨
    edgesBetween (addInterlayerEdges dist g ps) a b
      = edgesBetween g a b ++
          (visitContrib dist b pb (a, pa) a b ++ visitContrib dist a pa (b, pb) a b) := by
  have houter := edgesBetween_linker dist ps a b ps g
  have hsingle_a : concatMap (fun np2 => visitContrib dist a pa np2 a b) ps
      = visitContrib dist a pa (b, pb) a b := by
    refine concatMap_single hmb hnodup ?_
    intro x hx hxb
    obtain ⟨xn, xp⟩ := x
    by_cases hxa : xn = a
    · rw [hxa]
      exact visitContrib_self dist a pa xp a b
    · exact visitContrib_nil_right dist a pa (xn, xp) a b hxa hxb
  have hsingle_b : concatMap (fun np2 => visitContrib dist b pb np2 a b) ps
      = visitContrib dist b pb (a, pa) a b := by
    refine concatMap_single hma hnodup ?_
    intro x hx hxa
    obtain ⟨xn, xp⟩ := x
    by_cases hxb : xn = b
    · rw [hxb]
      exact visitContrib_self dist b pb xp a b
    · exact visitContrib_nil_right dist b pb (xn, xp) a b hxa hxb
  have hpair := concatMap_pair (f := fun np1 =>
      concatMap (fun np2 => visitContrib dist np1.1 np1.2 np2 a b) ps)
    hab hma hmb hnodup
    (by
      intro x hx hxa hxb
      refine concatMap_eq_nil ?_
      intro y hy
      exact visitContrib_nil_left dist x.1 x.2 y a b hxa hxb)
  unfold addInterlayerEdges
  rcases hpair with hp | hp
  · left
    rw [houter, hp]
    simp only
    rw [hsingle_a, hsingle_b]
  · right
    rw [houter, hp]
    simp only
    rw [hsingle_a, hsingle_b]

lemma tableDist_symm (p q : Coord) : tableDist p q = tableDist q p := by
  unfold tableDist
  by_cases h : p = q
  · rw [if_pos h, if_pos h.symm]
  · rw [if_neg h, if_neg (fun hh => h hh.symm)]

/-- C1: the claim is FALSE as stated.  For the cross-mode pair `1_walk`, `2_bike` with
distinct original ids at distance 0 (≤ 10 m), the pairwise scan visits the pair in both
orders and inserts the bidirectional 2.0 pair twice: each direction carries two transfer
edges, not the claimed exactly one. -/
theorem c1_claim_counterexample :
    origId "1_walk" ≠ origId "2_bike" ∧
    modeSuffix "1_walk" ≠ modeSuffix "2_bike" ∧
    tableDist (0, 0) (0, 0) ≤ 10 ∧
    ¬ (edgesBetween (addInterlayerEdges tableDist emptyGraph psCross) "1_walk" "2_bike").length = 1 ∧
    (edgesBetween (addInterlayerEdges tableDist emptyGraph psCross) "1_walk" "2_bike").length = 2 ∧
    (edgesBetween (addInterlayerEdges tableDist emptyGraph psCross) "2_bike" "1_walk").length = 2 := by
  decide

/-- C1 (amended): for every pair of nodes of the combined position table from different
modes with differing original ids, at geodesic distance ≤ 10 m the linker leaves exactly
TWO transfer edges in each direction (the 2.0/2.0/measured-distance pair is inserted
once per ordered visit of the pair), and beyond 10 m it leaves none. -/
theorem c1_amended_double_pair
    (dist : Coord → Coord → ℚ) (g : MultiDiGraph) (ps : List (Node × Coord))
    (a b : Node) (pa pb : Coord)
    (hsymm : ∀ p q, dist p q = dist q p)
    (hnodup : (ps.map Prod.fst).Nodup) (hma : (a, pa) ∈ ps) (hmb : (b, pb) ∈ ps)
    (hab : a ≠ b) (hmode : modeSuffix a ≠ modeSuffix b) (horig : origId a ≠ origId b)
    (hinit_ab : edgesBetween g a b = []) (hinit_ba : edgesBetween g b a = []) :
    (dist pa pb ≤ 10 →
      edgesBetween (addInterlayerEdges dist g ps) a b
          = [transferEdge2 (dist pa pb), transferEdge2 (dist pa pb)] ∧
      edgesBetween (addInterlayerEdges dist g ps) b a
          = [transferEdge2 (dist pa pb), transferEdge2 (dist pa pb)]) ∧
    (¬ dist pa pb ≤ 10 →
      edgesBetween (addInterlayerEdges dist g ps) a b = [] ∧
      edgesBetween (addInterlayerEdges dist g ps) b a = []) := by
  have hba : b ≠ a := Ne.symm hab
  have horig' : origId b ≠ origId a := Ne.symm horig
  have hdsym : dist pb pa = dist pa pb := hsymm pb pa
  have hmain := linker_pair_edges dist g ps a b pa pb hnodup hma hmb hab
  have hmain' := linker_pair_edges dist g ps b a pb pa hnodup hmb hma hba
  constructor
  · intro hle
    have hle' : dist pb pa ≤ 10 := by rw [hdsym]; exact hle
    have hvab : visitContrib dist a pa (b, pb) a b = [transferEdge2 (dist pa pb)] := by
      simp [visitContrib, hab, hba, horig, hle]
    have hvba : visitContrib dist b pb (a, pa) a b = [transferEdge2 (dist pa pb)] := by
      simp [visitContrib, hab, hba, horig', hle, hle', hdsym]
    have hvba2 : visitContrib dist b pb (a, pa) b a = [transferEdge2 (dist pa pb)] := by
      simp [visitContrib, hab, hba, horig', hle, hle', hdsym]
    have hvab2 : visitContrib dist a pa (b, pb) b a = [transferEdge2 (dist pa pb)] := by
      simp [visitContrib, hab, hba, horig, hle]
    constructor
    · rcases hmain with h | h <;> rw [h, hinit_ab, hvab, hvba] <;> rfl
    · rcases hmain' with h | h <;> rw [h, hinit_ba, hvab2, hvba2] <;> rfl
  · intro hgt
    have hgt' : ¬ dist pb pa ≤ 10 := by rw [hdsym]; exact hgt
    have hvab : visitContrib dist a pa (b, pb) a b = [] := by
      simp [visitContrib, hab, hba, horig, hgt]
    have hvba : visitContrib dist b pb (a, pa) a b = [] := by
      simp [visitContrib, hab, hba, horig', hgt']
    have hvba2 : visitContrib dist b pb (a, pa) b a = [] := by
      simp [visitContrib, hab, hba, horig', hgt']
    have hvab2 : visitContrib dist a pa (b, pb) b a = [] := by
      simp [visitContrib, hab, hba, horig, hgt]
    constructor
    · rcases hmain with h | h <;> rw [h, hinit_ab, hvab, hvba] <;> rfl
    · rcases hmain' with h | h <;> rw [h, hinit_ba, hvab2, hvba2] <;> rfl

/-- C1 (amended, witness): concrete cross-mode pair at distance 0 — the linker leaves
exactly the duplicated 2.0 pair in each direction. -/
theorem c1_amended_double_pair_witness :
    edgesBetween (addInterlayerEdges tableDist emptyGraph psCross) "1_walk" "2_bike"
        = [transferEdge2 (tableDist (0, 0) (0, 0)), transferEdge2 (tableDist (0, 0) (0, 0))] ∧
    edgesBetween (addInterlayerEdges tableDist emptyGraph psCross) "2_bike" "1_walk"
        = [transferEdge2 (tableDist (0, 0) (0, 0)), transferEdge2 (tableDist (0, 0) (0, 0))] :=
  (c1_amended_double_pair tableDist emptyGraph psCross "1_walk" "2_bike" (0, 0) (0, 0)
    tableDist_symm (by decide) (by decide) (by decide) (by decide) (by decide) (by decide)
    rfl rfl).1 (by decide)

/-- C2: the claim is FALSE as stated.  For the shared-origin pair `7_walk`, `7_bike` the
ordered scan adds a 0.5 transfer edge on each of its two visits, one per direction: two
directed transfer edges exist between the namespaced ids, not the claimed exactly one
(the link is in fact always bidirectional). -/
theorem c2_claim_counterexample :
    origId "7_walk" = origId "7_bike" ∧
    modeSuffix "7_walk" ≠ modeSuffix "7_bike" ∧
    ¬ ((edgesBetween (addInterlayerEdges tableDist emptyGraph psShared) "7_walk" "7_bike").length +
       (edgesBetween (addInterlayerEdges tableDist emptyGraph psShared) "7_bike" "7_walk").length = 1) ∧
    ((edgesBetween (addInterlayerEdges tableDist emptyGraph psShared) "7_walk" "7_bike").map EdgeData.mode
        = [some "transfer"]) ∧
    ((edgesBetween (addInterlayerEdges tableDist emptyGraph psShared) "7_bike" "7_walk").map EdgeData.mode
        = [some "transfer"]) := by
  decide

/-- C2 (amended): for every pair of nodes of the combined position table from different
modes sharing an original id, the linker leaves exactly one directed 0.5/0.5/length-0
transfer edge in EACH direction (the pair is always linked bidirectionally, one edge per
ordered visit). -/
theorem c2_amended_one_each_direction
    (dist : Coord → Coord → ℚ) (g : MultiDiGraph) (ps : List (Node × Coord))
    (a b : Node) (pa pb : Coord)
    (hnodup : (ps.map Prod.fst).Nodup) (hma : (a, pa) ∈ ps) (hmb : (b, pb) ∈ ps)
    (hab : a ≠ b) (hmode : modeSuffix a ≠ modeSuffix b) (horig : origId a = origId b)
    (hinit_ab : edgesBetween g a b = []) (hinit_ba : edgesBetween g b a = []) :
    edgesBetween (addInterlayerEdges dist g ps) a b = [transferEdge05] ∧
    edgesBetween (addInterlayerEdges dist g ps) b a = [transferEdge05] := by
  have hba : b ≠ a := Ne.symm hab
  have horig' : origId b = origId a := horig.symm
  have hmain := linker_pair_edges dist g ps a b pa pb hnodup hma hmb hab
  have hmain' := linker_pair_edges dist g ps b a pb pa hnodup hmb hma hba
  have hvab : visitContrib dist a pa (b, pb) a b = [transferEdge05] := by
    simp [visitContrib, hab, hba, horig]
  have hvba : visitContrib dist b pb (a, pa) a b = [] := by
    simp [visitContrib, hab, hba, horig']
  have hvba2 : visitContrib dist b pb (a, pa) b a = [transferEdge05] := by
    simp [visitContrib, hab, hba, horig']
  have hvab2 : visitContrib dist a pa (b, pb) b a = [] := by
    simp [visitContrib, hab, hba, horig]
  constructor
  · rcases hmain with h | h <;> rw [h, hinit_ab, hvab, hvba] <;> rfl
  · rcases hmain' with h | h <;> rw [h, hinit_ba, hvab2, hvba2] <;> rfl

/-- C2 (amended, witness): the concrete shared-origin pair ends up with exactly one 0.5
transfer edge in each direction. -/
theorem c2_amended_one_each_direction_witness :
    edgesBetween (addInterlayerEdges tableDist emptyGraph psShared) "7_walk" "7_bike"
        = [transferEdge05] ∧
    edgesBetween (addInterlayerEdges tableDist emptyGraph psShared) "7_bike" "7_walk"
        = [transferEdge05] :=
  c2_amended_one_each_direction tableDist emptyGraph psShared "7_walk" "7_bike" (0, 0) (0, 0)
    (by decide) (by decide) (by decide) (by decide) (by decide) (by decide) rfl rfl

/-- C3: the code contradicts the claim (and its own docstring): the pairwise scan never
checks mode membership, so the two SAME-layer walk nodes `1_walk`, `2_walk` with
distinct original ids at distance 0 (≤ 10 m) receive transfer edges in both directions. -/
theorem c3_same_layer_transfer_edges_added :
    modeSuffix "1_walk" = modeSuffix "2_walk" ∧
    origId "1_walk" ≠ origId "2_walk" ∧
    tableDist (0, 0) (0, 0) ≤ 10 ∧
    edgesBetween (addInterlayerEdges tableDist emptyGraph psSameLayer) "1_walk" "2_walk"
        = [transferEdge2 (tableDist (0, 0) (0, 0)), transferEdge2 (tableDist (0, 0) (0, 0))] ∧
    edgesBetween (addInterlayerEdges tableDist emptyGraph psSameLayer) "2_walk" "1_walk"
        = [transferEdge2 (tableDist (0, 0) (0, 0)), transferEdge2 (tableDist (0, 0) (0, 0))] := by
  decide

lemma pyRound_intCast (n : ℤ) : pyRound (n : ℚ) = n := by
  simp only [pyRound, Int.floor_intCast, sub_self]
  norm_num

lemma round0_intCast (n : ℤ) : round0 (n : ℚ) = (n : ℚ) := by
  unfold round0
  rw [pyRound_intCast]

lemma round0_zero : round0 0 = 0 := by
  have h := round0_intCast 0
  simpa using h

lemma round1_zero : round1 0 = 0 := by
  unfold round1
  rw [zero_mul]
  have h := pyRound_intCast 0
  simp only [Int.cast_zero] at h
  rw [h]
  norm_num

/-- C4: after `_add_mode_attributes` with mode `m` and speed `s`, every edge carries
mode `m`, time computed by the length formula (fallback 1.0 for a missing length,
unchanged `length` field), `weight = time`, and — for nonnegative lengths and positive
speed — a nonnegative time. -/
theorem c4_mode_attributes
    (g : MultiDiGraph) (m : String) (s : ℚ) (hs : 0 < s)
    (hlen : ∀ u v k d, (u, v, k, d) ∈ g.edges → ∀ L : ℚ, d.length = some L → 0 ≤ L) :
    ∀ u v k d, (u, v, k, d) ∈ (addModeAttributes g m s).edges →
      d.mode = some m ∧ d.weight = d.time ∧ d.time = some (modeTime d.length s) ∧
      ∃ t : ℚ, d.time = some t ∧ 0 ≤ t := by
  intro u v k d hm
  unfold addModeAttributes at hm
  rw [List.mem_map] at hm
  obtain ⟨e, he, heq⟩ := hm
  obtain ⟨ue, ve, ke, de⟩ := e
  simp only [Prod.mk.injEq] at heq
  obtain ⟨hu, hv, hk, hd⟩ := heq
  subst hu
  subst hv
  subst hk
  subst hd
  refine ⟨rfl, rfl, rfl, modeTime de.length s, rfl, ?_⟩
  cases hL : de.length with
  | none => simp [modeTime]
  | some L =>
    have h0 : 0 ≤ L := hlen ue ve ke de he L hL
    simp only [modeTime]
    exact mul_nonneg (div_nonneg (div_nonneg h0 (by norm_num)) hs.le) (by norm_num)

/-- C4 (witness): the attribute pass over a one-edge graph at speed 5 produces the
walk-tagged edge with fallback time, equal weight, and a nonnegative time. -/
theorem c4_mode_attributes_witness :
    dC4.mode = some "walk" ∧ dC4.weight = dC4.time ∧
    dC4.time = some (modeTime dC4.length 5) ∧
    ∃ t : ℚ, dC4.time = some t ∧ 0 ≤ t :=
  c4_mode_attributes gC4 "walk" 5 (by norm_num)
    (by
      intro u v k d hm L hL
      simp only [gC4, List.mem_singleton, Prod.mk.injEq] at hm
      obtain ⟨-, -, -, hd⟩ := hm
      rw [hd] at hL
      simp at hL)
    "a" "b" 0 _ (by decide)

lemma calc_cost_eq (m : String) (t : ℚ) : calc_cost m t = if m = "car" then 20 else 0 := by
  by_cases h : m = "car"
  · simp [calc_cost, h]
  · simp only [calc_cost, if_neg h]
    split_ifs <;> rfl

lemma calc_cost_mul20 (m : String) (t : ℚ) : ∃ k : ℕ, calc_cost m t = 20 * (k : ℚ) := by
  by_cases h : m = "car"
  · exact ⟨1, by simp [calc_cost_eq, h]⟩
  · exact ⟨0, by simp [calc_cost_eq, h]⟩

lemma round0_twenty_mul (k : ℕ) : round0 (20 * (k : ℚ)) = 20 * (k : ℚ) := by
  have h : (20 * (k : ℚ)) = (((20 * k : ℕ) : ℤ) : ℚ) := by push_cast; ring
  rw [h, round0_intCast]

lemma pathPairs_short {path : List Node} (h : path.length < 2) : pathPairs path = [] := by
  match path with
  | [] => rfl
  | [x] => rfl
  | x :: y :: rest => simp at h; omega

lemma segStep_eq (g : MultiDiGraph) (st : SegState) (uv : Node × Node) :
    segStep g st uv
      = segStepCore (resolvedMode g uv.1 uv.2) (resolvedTime g uv.1 uv.2)
          (nodeCoord g uv.1) st := rfl

/-- Preservation of the cost bookkeeping by one loop iteration: the running cost is a
multiple of 20, the emitted-plus-running total grows by exactly the edge's cost. -/
lemma segStepCore_cost (mode : String) (time : ℚ) (coord : Coord) (st : SegState) (n : ℕ)
    (h0 : st.currentMode = none → st.currentCost = 0)
    (hne : st.currentMode ≠ none → st.currentCoords ≠ [])
    (hk : ∃ k : ℕ, st.currentCost = 20 * (k : ℚ))
    (hsum : (st.segments.map Segment.cost).sum + st.currentCost = 20 * (n : ℚ)) :
    ((segStepCore mode time coord st).currentMode = none →
        (segStepCore mode time coord st).currentCost = 0) ∧
    ((segStepCore mode time coord st).currentMode ≠ none →
        (segStepCore mode time coord st).currentCoords ≠ []) ∧
    (∃ k : ℕ, (segStepCore mode time coord st).currentCost = 20 * (k : ℚ)) ∧
    ((segStepCore mode time coord st).segments.map Segment.cost).sum
        + (segStepCore mode time coord st).currentCost
      = 20 * (n : ℚ) + calc_cost mode time := by
  obtain ⟨k, hkk⟩ := hk
  obtain ⟨km, hkm⟩ := calc_cost_mul20 mode time
  obtain ⟨cm, ccs, ct, cc, sgs⟩ := st
  dsimp only at h0 hne hkk hsum
  cases cm with
  | none =>
    have hcc : cc = 0 := h0 rfl
    subst hcc
    have hstep : segStepCore mode time coord ⟨none, ccs, ct, 0, sgs⟩
        = ⟨some mode, [coord], ct + time, 0 + calc_cost mode time, sgs⟩ := by
      unfold segStepCore segInit segSwitch segCoord segAccum
      simp
    rw [hstep]
    refine ⟨?_, ?_, ?_, ?_⟩
    · intro h
      simp at h
    · intro _
      simp
    · refine ⟨km, ?_⟩
      dsimp only
      rw [zero_add, hkm]
    · dsimp only
      linarith [hsum]
  | some m =>
    have hccs : ccs ≠ [] := hne (by simp)
    by_cases hsame : m = mode
    · subst hsame
      by_cases hmem : coord ∈ ccs
      · have hstep : segStepCore m time coord ⟨some m, ccs, ct, cc, sgs⟩
            = ⟨some m, ccs, ct + time, cc + calc_cost m time, sgs⟩ := by
          unfold segStepCore segInit segSwitch segCoord segAccum
          simp [hmem]
        rw [hstep]
        refine ⟨?_, ?_, ?_, ?_⟩
        · intro h
          simp at h
        · intro _
          exact hccs
        · refine ⟨k + km, ?_⟩
          dsimp only
          push_cast
          rw [hkk, hkm]
          ring
        · dsimp only
          linarith [hsum]
      · have hstep : segStepCore m time coord ⟨some m, ccs, ct, cc, sgs⟩
            = ⟨some m, ccs ++ [coord], ct + time, cc + calc_cost m time, sgs⟩ := by
          unfold segStepCore segInit segSwitch segCoord segAccum
          simp [hmem]
        rw [hstep]
        refine ⟨?_, ?_, ?_, ?_⟩
        · intro h
          simp at h
        · intro _
          simp
        · refine ⟨k + km, ?_⟩
          dsimp only
          push_cast
          rw [hkk, hkm]
          ring
        · dsimp only
          linarith [hsum]
    · have hsome : (some m : Option String) ≠ some mode := by simp [hsame]
      have hstep : segStepCore mode time coord ⟨some m, ccs, ct, cc, sgs⟩
          = ⟨some mode, [coord], 0 + time, 0 + calc_cost mode time,
             sgs ++ [{ mode := m, coords := ccs, time := round1 ct, cost := round0 cc }]⟩ := by
        unfold segStepCore segInit segSwitch segCoord segAccum
        simp [hsome, hccs]
      rw [hstep]
      refine ⟨?_, ?_, ?_, ?_⟩
      · intro h
        simp at h
      · intro _
        simp
      · refine ⟨km, ?_⟩
        dsimp only
        rw [zero_add, hkm]
      · dsimp only
        have hr : round0 cc = cc := by rw [hkk, round0_twenty_mul, ← hkk]
        simp only [List.map_append, List.sum_append, List.map_cons, List.map_nil,
          List.sum_cons, List.sum_nil]
        rw [hr]
        linarith [hsum]

/-- The cost bookkeeping holds after folding the loop over any pair list; the total is
20 per car-resolved edge. -/
lemma foldl_segStep_cost (g : MultiDiGraph) :
    ∀ (pairs : List (Node × Node)) (st : SegState) (n : ℕ),
      (st.currentMode = none → st.currentCost = 0) →
      (st.currentMode ≠ none → st.currentCoords ≠ []) →
      (∃ k : ℕ, st.currentCost = 20 * (k : ℚ)) →
      ((st.segments.map Segment.cost).sum + st.currentCost = 20 * (n : ℚ)) →
      ((pairs.foldl (segStep g) st).currentMode = none →
          (pairs.foldl (segStep g) st).currentCost = 0) ∧
      ((pairs.foldl (segStep g) st).currentMode ≠ none →
          (pairs.foldl (segStep g) st).currentCoords ≠ []) ∧
      (∃ k : ℕ, (pairs.foldl (segStep g) st).currentCost = 20 * (k : ℚ)) ∧
      (((pairs.foldl (segStep g) st).segments.map Segment.cost).sum
          + (pairs.foldl (segStep g) st).currentCost
        = 20 * ((n + pairs.countP (fun uv => resolvedMode g uv.1 uv.2 = "car") : ℕ) : ℚ)) := by
  intro pairs
  induction pairs with
  | nil =>
    intro st n h0 hne hk hsum
    refine ⟨h0, hne, hk, ?_⟩
    simpa using hsum
  | cons p rest ih =>
    intro st n h0 hne hk hsum
    have hstep := segStepCore_cost (resolvedMode g p.1 p.2) (resolvedTime g p.1 p.2)
      (nodeCoord g p.1) st n h0 hne hk hsum
    obtain ⟨h0', hne', hk', hsum'⟩ := hstep
    have hcount : calc_cost (resolvedMode g p.1 p.2) (resolvedTime g p.1 p.2)
        = 20 * ((if resolvedMode g p.1 p.2 = "car" then 1 else 0 : ℕ) : ℚ) := by
      rw [calc_cost_eq]
      by_cases h : resolvedMode g p.1 p.2 = "car" <;> simp [h]
    rw [hcount] at hsum'
    have hsum'' : ((segStepCore (resolvedMode g p.1 p.2) (resolvedTime g p.1 p.2)
            (nodeCoord g p.1) st).segments.map Segment.cost).sum
        + (segStepCore (resolvedMode g p.1 p.2) (resolvedTime g p.1 p.2)
            (nodeCoord g p.1) st).currentCost
        = 20 * ((n + (if resolvedMode g p.1 p.2 = "car" then 1 else 0) : ℕ) : ℚ) := by
      rw [hsum']
      push_cast
      ring
    have hres := ih (segStepCore (resolvedMode g p.1 p.2) (resolvedTime g p.1 p.2)
        (nodeCoord g p.1) st) (n + (if resolvedMode g p.1 p.2 = "car" then 1 else 0))
      h0' hne' hk' hsum''
    obtain ⟨r0, rne, rk, rsum⟩ := hres
    have hcnt : (n + (if resolvedMode g p.1 p.2 = "car" then 1 else 0))
          + rest.countP (fun uv => resolvedMode g uv.1 uv.2 = "car")
        = n + (p :: rest).countP (fun uv => resolvedMode g uv.1 uv.2 = "car") := by
      rw [List.countP_cons]
      by_cases h : resolvedMode g p.1 p.2 = "car" <;> simp [h] <;> omega
    rw [List.foldl_cons, segStep_eq]
    refine ⟨r0, rne, rk, ?_⟩
    rw [rsum]
    congr 1
    exact_mod_cast hcnt

/-- C5: the accrued per-edge cost is 20 for a car edge and 0 for walk, bike and transfer
edges, so the segment costs of any assembled path sum to 20 times the number of
car-resolved edges on the path. -/
theorem c5_flat_car_cost (g : MultiDiGraph) (path : List Node) :
    (∀ t : ℚ, calc_cost "car" t = 20 ∧ calc_cost "bike" t = 0 ∧ calc_cost "walk" t = 0 ∧
        calc_cost "transfer" t = 0) ∧
    ((pathToSegments g path).map Segment.cost).sum = 20 * (carEdgeCount g path : ℚ) := by
  constructor
  · intro t
    refine ⟨by simp [calc_cost], by simp [calc_cost], by simp [calc_cost], by simp [calc_cost]⟩
  · unfold pathToSegments carEdgeCount
    by_cases hlen : path.length < 2
    · rw [if_pos hlen, pathPairs_short hlen]
      simp
    · rw [if_neg hlen]
      have hinv := foldl_segStep_cost g (pathPairs path) initSegState 0
        (by intro _; rfl) (by intro h; exact absurd rfl h) ⟨0, by simp [initSegState]⟩
        (by simp [initSegState])
      obtain ⟨h0, hne, ⟨k, hk⟩, hsum⟩ := hinv
      rw [Nat.zero_add] at hsum
      set st := (pathPairs path).foldl (segStep g) initSegState with hst
      set st2 := segCoord (nodeCoord g (path.getLast?.getD "")) st with hst2
      have hmode2 : st2.currentMode = st.currentMode := by
        rw [hst2]; unfold segCoord; split <;> rfl
      have hcost2 : st2.currentCost = st.currentCost := by
        rw [hst2]; unfold segCoord; split <;> rfl
      have hsegs2 : st2.segments = st.segments := by
        rw [hst2]; unfold segCoord; split <;> rfl
      have hcoords2 : st.currentCoords ≠ [] → st2.currentCoords ≠ [] := by
        rw [hst2]; unfold segCoord; split
        · exact fun h => h
        · intro h
          simp
      unfold segClose
      cases hcm : st2.currentMode with
      | none =>
        simp only
        rw [hsegs2, hcost2] at *
        have hc0 : st.currentCost = 0 := h0 (hmode2 ▸ hcm)
        rw [hc0, add_zero] at hsum
        exact hsum
      | some m =>
        simp only
        have hne2 : st2.currentCoords ≠ [] := by
          apply hcoords2
          apply hne
          rw [← hmode2, hcm]
          simp
        rw [if_neg hne2]
        simp only [List.map_append, List.sum_append, List.map_cons, List.map_nil,
          List.sum_cons, List.sum_nil, add_zero]
        rw [hsegs2, hcost2, hk, round0_twenty_mul, ← hk]
        exact hsum

lemma segCoord_mode (coord : Coord) (st : SegState) :
    (segCoord coord st).currentMode = st.currentMode := by
  unfold segCoord
  split <;> rfl

lemma segCoord_segments (coord : Coord) (st : SegState) :
    (segCoord coord st).segments = st.segments := by
  unfold segCoord
  split <;> rfl

lemma segAccum_mode (mode : String) (time : ℚ) (st : SegState) :
    (segAccum mode time st).currentMode = st.currentMode := rfl

lemma segInit_isSome (mode : String) (coord : Coord) (st : SegState) :
    (segInit mode coord st).currentMode.isSome := by
  unfold segInit
  cases h : st.currentMode <;> simp [h]

lemma segStepCore_isSome (mode : String) (time : ℚ) (coord : Coord) (st : SegState) :
    (segStepCore mode time coord st).currentMode.isSome := by
  unfold segStepCore
  rw [segAccum_mode, segCoord_mode]
  unfold segSwitch
  split
  · next h => rw [h]; rfl
  · rfl

lemma foldl_segStep_isSome (g : MultiDiGraph) :
    ∀ (pairs : List (Node × Node)) (st : SegState), pairs ≠ [] →
      ((pairs.foldl (segStep g) st).currentMode).isSome := by
  intro pairs
  induction pairs with
  | nil => intro st h; exact absurd rfl h
  | cons p rest ih =>
    intro st _
    rw [List.foldl_cons]
    by_cases h : rest = []
    · subst h
      rw [List.foldl_nil, segStep_eq]
      exact segStepCore_isSome _ _ _ _
    · exact ih (segStep g st p) h

lemma pathPairs_ne_nil {path : List Node} (h : 2 ≤ path.length) : pathPairs path ≠ [] := by
  match path with
  | [] => simp at h
  | [x] => simp at h
  | x :: y :: rest =>
    show (x, y) :: _ ≠ []
    simp

lemma nodup_append_one {l : List Coord} {c : Coord} (hnd : l.Nodup) (hc : c ∉ l) :
    (l ++ [c]).Nodup := by
  rw [List.nodup_append]
  refine ⟨hnd, List.nodup_singleton c, ?_⟩
  intro a ha hb
  rw [List.mem_singleton] at hb
  subst hb
  exact hc ha

/-- One loop iteration keeps every coordinate list (open and emitted) duplicate-free. -/
lemma segStepCore_nodup (mode : String) (time : ℚ) (coord : Coord) (st : SegState)
    (hnd : st.currentCoords.Nodup) (hsegs : ∀ s ∈ st.segments, s.coords.Nodup) :
    (segStepCore mode time coord st).currentCoords.Nodup ∧
    (∀ s ∈ (segStepCore mode time coord st).segments, s.coords.Nodup) := by
  obtain ⟨cm, ccs, ct, cc, sgs⟩ := st
  dsimp only at hnd hsegs
  cases cm with
  | none =>
    have hstep : segStepCore mode time coord ⟨none, ccs, ct, cc, sgs⟩
        = ⟨some mode, [coord], ct + time, cc + calc_cost mode time, sgs⟩ := by
      unfold segStepCore segInit segSwitch segCoord segAccum
      simp
    rw [hstep]
    exact ⟨List.nodup_singleton coord, hsegs⟩
  | some m =>
    by_cases hsame : m = mode
    · subst hsame
      by_cases hmem : coord ∈ ccs
      · have hstep : segStepCore m time coord ⟨some m, ccs, ct, cc, sgs⟩
            = ⟨some m, ccs, ct + time, cc + calc_cost m time, sgs⟩ := by
          unfold segStepCore segInit segSwitch segCoord segAccum
          simp [hmem]
        rw [hstep]
        exact ⟨hnd, hsegs⟩
      · have hstep : segStepCore m time coord ⟨some m, ccs, ct, cc, sgs⟩
            = ⟨some m, ccs ++ [coord], ct + time, cc + calc_cost m time, sgs⟩ := by
          unfold segStepCore segInit segSwitch segCoord segAccum
          simp [hmem]
        rw [hstep]
        exact ⟨nodup_append_one hnd hmem, hsegs⟩
    · have hsome : (some m : Option String) ≠ some mode := by simp [hsame]
      by_cases hccs : ccs = []
      · have hstep : segStepCore mode time coord ⟨some m, ccs, ct, cc, sgs⟩
            = ⟨some mode, [coord], 0 + time, 0 + calc_cost mode time, sgs⟩ := by
          unfold segStepCore segInit segSwitch segCoord segAccum
          simp [hsome, hccs]
        rw [hstep]
        exact ⟨List.nodup_singleton coord, hsegs⟩
      · have hstep : segStepCore mode time coord ⟨some m, ccs, ct, cc, sgs⟩
            = ⟨some mode, [coord], 0 + time, 0 + calc_cost mode time,
               sgs ++ [{ mode := m, coords := ccs, time := round1 ct, cost := round0 cc }]⟩ := by
          unfold segStepCore segInit segSwitch segCoord segAccum
          simp [hsome, hccs]
        rw [hstep]
        refine ⟨List.nodup_singleton coord, ?_⟩
        intro s hs
        rw [List.mem_append] at hs
        rcases hs with hs | hs
        · exact hsegs s hs
        · rw [List.mem_singleton] at hs
          subst hs
          exact hnd

lemma foldl_segStep_nodup (g : MultiDiGraph) :
    ∀ (pairs : List (Node × Node)) (st : SegState),
      st.currentCoords.Nodup → (∀ s ∈ st.segments, s.coords.Nodup) →
      ((pairs.foldl (segStep g) st).currentCoords.Nodup ∧
        ∀ s ∈ (pairs.foldl (segStep g) st).segments, s.coords.Nodup) := by
  intro pairs
  induction pairs with
  | nil => intro st hnd hsegs; exact ⟨hnd, hsegs⟩
  | cons p rest ih =>
    intro st hnd hsegs
    rw [List.foldl_cons, segStep_eq]
    obtain ⟨hnd', hsegs'⟩ := segStepCore_nodup (resolvedMode g p.1 p.2)
      (resolvedTime g p.1 p.2) (nodeCoord g p.1) st hnd hsegs
    exact ih _ hnd' hsegs'

/-- C7: the claim is FALSE as stated.  On the single-mode walk A → B → A2 → C where A2
sits at A's coordinate (0,0), the loop skips (0,0) on its second, NON-consecutive
occurrence (the last recorded coordinate is (1,1)), so the segment's coordinates differ
from the spec policy of removing only consecutive duplicates. -/
theorem c7_claim_counterexample :
    (pathToSegments gC7 pathC7).map Segment.coords = [[(0, 0), (1, 1), (2, 2)]] ∧
    specPolicyCoords gC7 pathC7 = [(0, 0), (1, 1), (0, 0), (2, 2)] ∧
    ¬ ((pathToSegments gC7 pathC7).map Segment.coords = [specPolicyCoords gC7 pathC7]) := by
  decide

/-- C7 (amended): a traversed coordinate is appended only when it appears NOWHERE in the
open segment's list, so every emitted segment has duplicate-free coordinates; and after
the loop the destination's coordinate is a member of the last segment's list (appended
whenever absent from the whole list). -/
theorem c7_amended_whole_list_dedup (g : MultiDiGraph) (path : List Node) :
    (∀ s ∈ pathToSegments g path, s.coords.Nodup) ∧
    (2 ≤ path.length →
      ∃ pre s, pathToSegments g path = pre ++ [s] ∧
        nodeCoord g (path.getLast?.getD "") ∈ s.coords) := by
  unfold pathToSegments
  by_cases hlen : path.length < 2
  · rw [if_pos hlen]
    refine ⟨?_, ?_⟩
    · intro s hs
      cases hs
    · intro h2
      omega
  · rw [if_neg hlen]
    set st := (pathPairs path).foldl (segStep g) initSegState with hst
    obtain ⟨hnd, hsegs⟩ := foldl_segStep_nodup g (pathPairs path) initSegState
      (by simp [initSegState]) (by intro s hs; simp [initSegState] at hs)
    have hisSome : st.currentMode.isSome :=
      foldl_segStep_isSome g (pathPairs path) initSegState (pathPairs_ne_nil (by omega))
    set c := nodeCoord g (path.getLast?.getD "") with hc
    set st2 := segCoord c st with hst2
    have hmode2 : st2.currentMode = st.currentMode := segCoord_mode c st
    have hsegs2 : st2.segments = st.segments := segCoord_segments c st
    have hnd2 : st2.currentCoords.Nodup := by
      rw [hst2]
      unfold segCoord
      split
      · exact hnd
      · next hmemc =>
          dsimp only
          exact nodup_append_one hnd hmemc
    have hcmem : c ∈ st2.currentCoords := by
      rw [hst2]
      unfold segCoord
      split
      · next hmemc => exact hmemc
      · dsimp only
        simp
    unfold segClose
    cases hcm : st2.currentMode with
    | none =>
      rw [← hmode2, hcm] at hisSome
      simp at hisSome
    | some m =>
      dsimp only
      have hne2 : st2.currentCoords ≠ [] := by
        intro h
        rw [h] at hcmem
        cases hcmem
      rw [if_neg hne2]
      constructor
      · intro s hs
        rw [List.mem_append] at hs
        rcases hs with hs | hs
        · exact hsegs s (hsegs2 ▸ hs)
        · rw [List.mem_singleton] at hs
          subst hs
          exact hnd2
      · intro _
        exact ⟨st2.segments,
          { mode := m, coords := st2.currentCoords,
            time := round1 st2.currentTime, cost := round0 st2.currentCost },
          rfl, hcmem⟩

/-- C7 (amended, witness): the concrete revisiting walk yields one segment with
duplicate-free coordinates containing the destination's coordinate. -/
theorem c7_amended_whole_list_dedup_witness :
    (∀ s ∈ pathToSegments gC7 pathC7, s.coords.Nodup) ∧
    ∃ pre s, pathToSegments gC7 pathC7 = pre ++ [s] ∧
      nodeCoord gC7 (pathC7.getLast?.getD "") ∈ s.coords :=
  ⟨(c7_amended_whole_list_dedup gC7 pathC7).1,
   (c7_amended_whole_list_dedup gC7 pathC7).2 (by decide)⟩

lemma find?_key_zero :
    ∀ {l : List (Nat × EdgeData)} {d : EdgeData},
      (l.map Prod.fst).Nodup → (0, d) ∈ l →
      l.find? (fun kd => kd.1 == 0) = some (0, d) := by
  intro l
  induction l with
  | nil => intro d _ h; cases h
  | cons kd rest ih =>
    intro d hnodup hmem
    rw [List.map_cons, List.nodup_cons] at hnodup
    rcases List.mem_cons.mp hmem with hh | hh
    · rw [← hh]
      exact List.find?_cons_of_pos _ (by simp)
    · have hk : kd.1 ≠ 0 := by
        intro he
        apply hnodup.1
        have hm : (0 : Nat) ∈ rest.map Prod.fst := List.mem_map_of_mem Prod.fst hh
        rw [he]
        exact hm
      rw [List.find?_cons_of_neg _ (by simp [hk])]
      exact ih hnodup.2 hh

/-- C6: the claim is FALSE as stated.  With two parallel edges `u → v` of weights 5
(key 0) and 1 (key 1), `_get_edge_data` returns the key-0 edge of weight 5, not the
lowest-weight parallel edge. -/
theorem c6_claim_counterexample : ¬ picksLowestWeight gC6 "u" "v" := by
  intro h
  have h5 := h (1, { weight := some 1 }) (by decide) 5 1 (by decide) rfl
  exact absurd h5 (by decide)

/-- C6 (amended): the assembler resolves parallel edges by KEY, not by weight: whenever
an edge keyed 0 exists between the pair (keys being unique, as in a networkx key
dictionary), its data — of whatever weight — is returned. -/
theorem c6_amended_key_zero_pick (g : MultiDiGraph) (u v : Node) (d : EdgeData)
    (hnodup : ((getEdgeDataDict g u v).map Prod.fst).Nodup)
    (hmem : (0, d) ∈ getEdgeDataDict g u v) :
    getEdgeData g u v = d := by
  unfold getEdgeData
  rw [find?_key_zero hnodup hmem]

/-- C6 (amended, witness): on the concrete two-parallel-edge graph the key-0 data
(weight 5) is returned. -/
theorem c6_amended_key_zero_pick_witness :
    getEdgeData gC6 "u" "v" = ({ weight := some 5 } : EdgeData) :=
  c6_amended_key_zero_pick gC6 "u" "v" ({ weight := some 5 } : EdgeData)
    (by decide) (by decide)

/-- C10: a missing `mode` attribute resolves to `walk`, a missing `time` attribute to
1.0, and a missing edge resolves to the empty attribute record, to which the same
defaults apply — segment assembly is total. -/
theorem c10_edge_defaults (g : MultiDiGraph) (u v : Node) :
    (getEdgeDataDict g u v = [] → getEdgeData g u v = emptyEdgeData) ∧
    ((getEdgeData g u v).mode = none → resolvedMode g u v = "walk") ∧
    ((getEdgeData g u v).time = none → resolvedTime g u v = 1) ∧
    (getEdgeDataDict g u v = [] → resolvedMode g u v = "walk" ∧ resolvedTime g u v = 1) := by
  have hbase : getEdgeDataDict g u v = [] → getEdgeData g u v = emptyEdgeData := by
    intro h
    unfold getEdgeData
    rw [h]
    rfl
  refine ⟨hbase, ?_, ?_, ?_⟩
  · intro h
    unfold resolvedMode
    rw [h]
    rfl
  · intro h
    unfold resolvedTime
    rw [h]
    rfl
  · intro h
    have he := hbase h
    constructor
    · unfold resolvedMode
      rw [he]
      rfl
    · unfold resolvedTime
      rw [he]
      rfl

/-- C10 (witness): in the empty graph the pair (a, b) has no edge and resolves to mode
`walk` and time 1. -/
theorem c10_edge_defaults_witness :
    resolvedMode emptyGraph "a" "b" = "walk" ∧ resolvedTime emptyGraph "a" "b" = 1 :=
  (c10_edge_defaults emptyGraph "a" "b").2.2.2 rfl

lemma firstSome_eq_some {α β : Type} {f : α → Option β} :
    ∀ {l : List α} {b : β}, firstSome f l = some b → ∃ a ∈ l, f a = some b := by
  intro l
  induction l with
  | nil => intro b h; cases h
  | cons a as ih =>
    intro b h
    simp only [firstSome] at h
    cases hfa : f a with
    | some c =>
      simp only [hfa] at h
      exact ⟨a, List.mem_cons_self a as, by rw [hfa, h]⟩
    | none =>
      simp only [hfa] at h
      obtain ⟨x, hx, hfx⟩ := ih h
      exact ⟨x, List.mem_cons_of_mem a hx, hfx⟩

lemma successors_hasEdge {g : MultiDiGraph} {u v : Node} (h : v ∈ successors g u) :
    hasEdge g u v := by
  unfold successors at h
  rw [List.mem_dedup, List.mem_filterMap] at h
  obtain ⟨e, he, hfe⟩ := h
  obtain ⟨a, b, k, d⟩ := e
  dsimp only at hfe
  by_cases hau : a = u
  · rw [if_pos hau] at hfe
    have hb : b = v := Option.some.inj hfe
    refine ⟨k, d, ?_⟩
    rw [← hau, ← hb]
    exact he
  · rw [if_neg hau] at hfe
    cases hfe

/-- Any list the bounded depth-first search returns is a genuine directed walk from the
start node to the target. -/
lemma dfs_sound (g : MultiDiGraph) (t : Node) :
    ∀ (fuel : Nat) (vis : List Node) (u : Node) (p : List Node),
      dfs g t fuel vis u = some p →
      p.head? = some u ∧ p.getLast? = some t ∧ List.Chain' (hasEdge g) p := by
  intro fuel
  induction fuel with
  | zero =>
    intro vis u p h
    simp [dfs] at h
  | succ fuel ih =>
    intro vis u p h
    simp only [dfs] at h
    by_cases hut : u = t
    · rw [if_pos hut] at h
      have hp : [u] = p := Option.some.inj h
      rw [← hp]
      refine ⟨rfl, ?_, List.chain'_singleton u⟩
      simp [hut]
    · rw [if_neg hut] at h
      obtain ⟨v, hv, hfv⟩ := firstSome_eq_some h
      by_cases hvis : v ∈ vis
      · rw [if_pos hvis] at hfv
        cases hfv
      · rw [if_neg hvis] at hfv
        cases hd : dfs g t fuel (u :: vis) v with
        | none => simp [hd] at hfv
        | some q =>
          simp only [hd, Option.map_some'] at hfv
          have hp : u :: q = p := Option.some.inj hfv
          obtain ⟨hq1, hq2, hq3⟩ := ih (u :: vis) v q hd
          rw [← hp]
          cases q with
          | nil => cases hq1
          | cons w ws =>
            have hwv : w = v := Option.some.inj hq1
            refine ⟨rfl, ?_, ?_⟩
            · rw [List.getLast?_cons_cons]
              exact hq2
            · rw [List.chain'_cons]
              refine ⟨?_, hq3⟩
              rw [hwv]
              exact successors_hasEdge hv

/-- C8: when the resolved start and end nodes are not connected by any directed walk,
route computation reports the no-path failure instead of returning a route. -/
theorem c8_disconnected_no_path_found
    (dist : Coord → Coord → ℚ) (g : MultiDiGraph) (slat slon elat elon : ℚ) (s t : Node)
    (hs : nearestNode dist g slat slon = some s)
    (ht : nearestNode dist g elat elon = some t)
    (hnp : ∀ p : List Node, ¬ IsWalkFrom g s t p) :
    get_multimodal_route dist g slat slon elat elon = .error .noPathFound := by
  unfold get_multimodal_route
  rw [hs, ht]
  dsimp only
  cases hsp : shortest_path g s t with
  | none => rfl
  | some p =>
    exfalso
    exact hnp p (dfs_sound g t (g.nodes.length + 1) [] s p hsp)

/-- C8 (witness): two isolated nodes are disconnected, and the route between them fails
with the no-path error. -/
theorem c8_disconnected_no_path_found_witness :
    get_multimodal_route tableDist gC8 0 0 5 5 = .error .noPathFound :=
  c8_disconnected_no_path_found tableDist gC8 0 0 5 5 "a" "b" (by decide) (by decide)
    (by
      intro p hp
      obtain ⟨h1, h2, h3⟩ := hp
      cases p with
      | nil => cases h1
      | cons x xs =>
        cases xs with
        | nil =>
          have hx1 : x = "a" := Option.some.inj h1
          have hx2 : x = "b" := Option.some.inj h2
          rw [hx1] at hx2
          exact absurd hx2 (by decide)
        | cons y ys =>
          rw [List.chain'_cons] at h3
          obtain ⟨k, d, hmem⟩ := h3.1
          simp [gC8] at hmem)

/-- C9: when the start and end coordinates resolve to the same nearest node, the route
is the empty-segment route with zero totals. -/
theorem c9_same_node_empty_route
    (dist : Coord → Coord → ℚ) (g : MultiDiGraph) (slat slon elat elon : ℚ) (n : Node)
    (hs : nearestNode dist g slat slon = some n)
    (ht : nearestNode dist g elat elon = some n) :
    get_multimodal_route dist g slat slon elat elon
      = .ok { total_time := 0, total_cost := 0, segments := [] } := by
  unfold get_multimodal_route
  rw [hs, ht]
  dsimp only
  have hsp : shortest_path g n n = some [n] := by
    unfold shortest_path
    simp [dfs]
  rw [hsp]
  dsimp only
  have hseg : pathToSegments g [n] = [] := by
    unfold pathToSegments
    rfl
  rw [hseg]
  simp [round0_zero, round1_zero]

/-- C9 (witness): identical query coordinates over a one-node graph yield the empty
route with zero totals. -/
theorem c9_same_node_empty_route_witness :
    get_multimodal_route tableDist gC9 0 0 0 0
      = .ok { total_time := 0, total_cost := 0, segments := [] } :=
  c9_same_node_empty_route tableDist gC9 0 0 0 0 "a" (by decide) (by decide)

end MultiRoute
